import Mathlib

/-!
Shallow embedding of the surma_balls WebGPU ball simulation (src/gpu.ts),
with theorems checking the natural-language specification against it.

The physics kernel (the WGSL `main` entry point), the dispatch loop, the
frame feedback loop, the initialization loop, the color update, the
renderer heading-angle computation, and the helper functions
`randomBetween` and `addHexColor` are translated here.  Numeric values
are modelled by exact rationals (reals where the code uses transcendental
functions); array buffers by functions from indices.
-/

namespace SurmaBalls

/-- One particle, mirroring the WGSL `Ball` struct: `radius: f32`,
`position: vec2<f32>`, `velocity: vec2<f32>` (the alignment padding slot
carries no data). -/
@[ext]
structure Ball where
  radius : ℚ
  posX : ℚ
  posY : ℚ
  velX : ℚ
  velY : ℚ
  deriving DecidableEq

/-- The WGSL `UniformData` struct: `canvasWidth: i32, canvasHeight: i32`. -/
structure UniformData where
  canvasWidth : ℤ
  canvasHeight : ℤ
  deriving DecidableEq

/-- The WGSL constant `TIME_STEP: f32 = 0.016`. -/
def TIME_STEP : ℚ := 0.016

/-- Body of the WGSL kernel for one in-range invocation: copy the source
ball, advance position by `velocity * TIME_STEP`, then for each axis flip
that axis's velocity (taking the sign from the original `src_ball`
velocity) when the new coordinate is `>= extent` or `<= 0`.  Position is
never written again after the integration line. -/
def kernelStep (uni : UniformData) (src : Ball) : Ball :=
  let dst := src
  let dst := { dst with
                posX := dst.posX + dst.velX * TIME_STEP,
                posY := dst.posY + dst.velY * TIME_STEP }
  let dst := if dst.posX ≥ (uni.canvasWidth : ℚ) ∨ dst.posX ≤ 0 then
                { dst with velX := src.velX * (-1) }
              else dst
  let dst := if dst.posY ≥ (uni.canvasHeight : ℚ) ∨ dst.posY ≤ 0 then
                { dst with velY := src.velY * (-1) }
              else dst
  dst

/-- One kernel invocation with global id `gid`, acting on the output
buffer: the guard `global_id.x >= arrayLength(&output)` returns without
touching anything; otherwise exactly the slot `gid` is written. -/
def applyInvocation (n : ℕ) (uni : UniformData) (input : ℕ → Ball)
    (out : ℕ → Ball) (gid : ℕ) : ℕ → Ball :=
  if gid < n then
    fun j => if j = gid then kernelStep uni (input gid) else out j
  else out

/-- A whole dispatch of `grid` workgroups of size 64: every global id in
`[0, grid*64)` runs `applyInvocation` (the invocations write disjoint
slots, so sequencing them in id order is faithful to the parallel map). -/
def dispatchGrid (grid n : ℕ) (uni : UniformData) (input out₀ : ℕ → Ball) :
    ℕ → Ball :=
  (List.range (grid * 64)).foldl (applyInvocation n uni input) out₀

/-- `numBalls = 200` from src/gpu.ts. -/
def numBalls : ℕ := 200

/-- `BUFFER_SIZE = numBalls * 6 * Float32Array.BYTES_PER_ELEMENT`. -/
def BUFFER_SIZE : ℕ := numBalls * 6 * 4

/-- The reference dispatch size `Math.ceil(BUFFER_SIZE / 64)` (computed
from the byte size of the buffer, not from the particle count). -/
def referenceGrid : ℕ := (BUFFER_SIZE + 63) / 64

theorem applyInvocation_apply (n : ℕ) (uni : UniformData)
    (input out : ℕ → Ball) (gid j : ℕ) :
    applyInvocation n uni input out gid j =
      if j = gid ∧ gid < n then kernelStep uni (input gid) else out j := by
  unfold applyInvocation
  by_cases hg : gid < n <;> by_cases hj : j = gid <;> simp [hg, hj]

theorem foldl_applyInvocation_apply (n : ℕ) (uni : UniformData)
    (input : ℕ → Ball) (l : List ℕ) (out : ℕ → Ball) (j : ℕ) :
    (l.foldl (applyInvocation n uni input) out) j =
      if j ∈ l ∧ j < n then kernelStep uni (input j) else out j := by
  induction l generalizing out with
  | nil => simp
  | cons a l ih =>
    rw [List.foldl_cons, ih]
    by_cases hm : j ∈ l ∧ j < n
    · simp [hm]
    · rw [if_neg hm, applyInvocation_apply]
      by_cases hj : j = a
      · subst hj
        by_cases hn : j < n
        · simp [hn]
        · simp [hn] at hm ⊢
      · simp [hj, hm]

theorem dispatchGrid_apply (grid n : ℕ) (uni : UniformData)
    (input out₀ : ℕ → Ball) (j : ℕ) :
    dispatchGrid grid n uni input out₀ j =
      if j < grid * 64 ∧ j < n then kernelStep uni (input j) else out₀ j := by
  unfold dispatchGrid
  rw [foldl_applyInvocation_apply]
  simp [List.mem_range]

theorem kernelStep_posX (uni : UniformData) (src : Ball) :
    (kernelStep uni src).posX = src.posX + src.velX * TIME_STEP := by
  simp only [kernelStep]
  split_ifs <;> rfl

theorem kernelStep_posY (uni : UniformData) (src : Ball) :
    (kernelStep uni src).posY = src.posY + src.velY * TIME_STEP := by
  simp only [kernelStep]
  split_ifs <;> rfl

theorem kernelStep_radius (uni : UniformData) (src : Ball) :
    (kernelStep uni src).radius = src.radius := by
  simp only [kernelStep]
  split_ifs <;> rfl

theorem kernelStep_velX (uni : UniformData) (src : Ball) :
    (kernelStep uni src).velX =
      if src.posX + src.velX * TIME_STEP ≥ (uni.canvasWidth : ℚ) ∨
          src.posX + src.velX * TIME_STEP ≤ 0 then -src.velX
      else src.velX := by
  simp only [kernelStep]
  split_ifs <;> simp [mul_neg_one]

theorem kernelStep_velY (uni : UniformData) (src : Ball) :
    (kernelStep uni src).velY =
      if src.posY + src.velY * TIME_STEP ≥ (uni.canvasHeight : ℚ) ∨
          src.posY + src.velY * TIME_STEP ≤ 0 then -src.velY
      else src.velY := by
  simp only [kernelStep]
  split_ifs <;> simp [mul_neg_one]

/-- C1: for every particle index `i < n`, any dispatch whose grid covers
at least `n` invocations writes, at slot `i`, a particle whose position on
each axis is the input position plus the input velocity scaled by the
fixed timestep `TIME_STEP = 0.016`; the reflection branches never touch
position (no clamping), so the equation holds unconditionally (also when
the result lies outside `[0, extent]`), and the answer does not depend on
the grid size chosen. -/
theorem C1_integration (grid n : ℕ) (uni : UniformData)
    (input out₀ : ℕ → Ball) (i : ℕ) (hn : n ≤ grid * 64) (hi : i < n) :
    (dispatchGrid grid n uni input out₀ i).posX =
        (input i).posX + (input i).velX * TIME_STEP ∧
    (dispatchGrid grid n uni input out₀ i).posY =
        (input i).posY + (input i).velY * TIME_STEP := by
  rw [dispatchGrid_apply, if_pos ⟨lt_of_lt_of_le hi hn, hi⟩]
  exact ⟨kernelStep_posX uni (input i), kernelStep_posY uni (input i)⟩

theorem C1_integration_witness :
    (dispatchGrid 1 1 ⟨100, 100⟩ (fun _ => ⟨3, 5, 7, 11, 13⟩)
        (fun _ => ⟨0, 0, 0, 0, 0⟩) 0).posX = 5 + 11 * TIME_STEP ∧
    (dispatchGrid 1 1 ⟨100, 100⟩ (fun _ => ⟨3, 5, 7, 11, 13⟩)
        (fun _ => ⟨0, 0, 0, 0, 0⟩) 0).posY = 7 + 13 * TIME_STEP :=
  C1_integration 1 1 ⟨100, 100⟩ (fun _ => ⟨3, 5, 7, 11, 13⟩)
    (fun _ => ⟨0, 0, 0, 0, 0⟩) 0 (by decide) (by decide)

/-- C2: on each axis independently, the output velocity component is the
negation of the original pre-step velocity component exactly when the
newly integrated coordinate is `>=` the boundary extent or `<= 0`, and is
unchanged otherwise (so the other axis is unaffected when only one axis
crosses).  In particular, with extent 100: input `position.x = 101`,
`velocity.x = 5` gives output `velocity.x = -5` with `velocity.y`
untouched, and `position.x = -1`, `velocity.x = -5` gives output
`velocity.x = 5`. -/
theorem C2_reflection (uni : UniformData) (src : Ball) :
    ((kernelStep uni src).velX =
      if src.posX + src.velX * TIME_STEP ≥ (uni.canvasWidth : ℚ) ∨
          src.posX + src.velX * TIME_STEP ≤ 0 then -src.velX
      else src.velX) ∧
    ((kernelStep uni src).velY =
      if src.posY + src.velY * TIME_STEP ≥ (uni.canvasHeight : ℚ) ∨
          src.posY + src.velY * TIME_STEP ≤ 0 then -src.velY
      else src.velY) ∧
    (kernelStep ⟨100, 100⟩ ⟨1, 101, 50, 5, 7⟩).velX = -5 ∧
    (kernelStep ⟨100, 100⟩ ⟨1, 101, 50, 5, 7⟩).velY = 7 ∧
    (kernelStep ⟨100, 100⟩ ⟨1, -1, 50, -5, 7⟩).velX = 5 := by
  refine ⟨kernelStep_velX uni src, kernelStep_velY uni src, ?_, ?_, ?_⟩
  · rw [kernelStep_velX, if_pos (Or.inl (by norm_num [TIME_STEP]))]
  · rw [kernelStep_velY, if_neg (by norm_num [TIME_STEP])]
  · rw [kernelStep_velX, if_pos (Or.inr (by norm_num [TIME_STEP]))]
    norm_num

/-- C4: invocations with global id `>= n` do no work: every slot `j >= n`
of the output buffer keeps its previous contents (no write past the
particle range), and every slot `i < n` holds `kernelStep` of input slot
`i` for any covering grid, hence is not altered by the extra invocations;
the reference grid computed from the byte size (`referenceGrid = 75`)
covers `numBalls = 200`. -/
theorem C4_overdispatch (grid n : ℕ) (uni : UniformData)
    (input out₀ : ℕ → Ball) (hn : n ≤ grid * 64) :
    (∀ j, n ≤ j → dispatchGrid grid n uni input out₀ j = out₀ j) ∧
    (∀ i, i < n → dispatchGrid grid n uni input out₀ i =
        kernelStep uni (input i)) ∧
    numBalls ≤ referenceGrid * 64 := by
  refine ⟨fun j hj => ?_, fun i hi => ?_, by decide⟩
  · rw [dispatchGrid_apply]
    exact if_neg (fun hc => absurd hc.2 (not_lt.mpr hj))
  · rw [dispatchGrid_apply, if_pos ⟨lt_of_lt_of_le hi hn, hi⟩]

theorem C4_overdispatch_witness :
    dispatchGrid 1 1 ⟨100, 100⟩ (fun _ => ⟨3, 5, 7, 11, 13⟩)
        (fun _ => ⟨9, 9, 9, 9, 9⟩) 5 = ⟨9, 9, 9, 9, 9⟩ ∧
    dispatchGrid 1 1 ⟨100, 100⟩ (fun _ => ⟨3, 5, 7, 11, 13⟩)
        (fun _ => ⟨9, 9, 9, 9, 9⟩) 0 =
      kernelStep ⟨100, 100⟩ ⟨3, 5, 7, 11, 13⟩ :=
  ⟨(C4_overdispatch 1 1 ⟨100, 100⟩ (fun _ => ⟨3, 5, 7, 11, 13⟩)
      (fun _ => ⟨9, 9, 9, 9, 9⟩) (by decide)).1 5 (by decide),
   (C4_overdispatch 1 1 ⟨100, 100⟩ (fun _ => ⟨3, 5, 7, 11, 13⟩)
      (fun _ => ⟨9, 9, 9, 9, 9⟩) (by decide)).2.1 0 (by decide)⟩

/-- C6: the kernel copies the source radius unchanged into the output
slot at the same index, for every index below the particle count, and no
branch of `kernelStep` ever writes the radius field. -/
theorem C6_radius_immutable (grid n : ℕ) (uni : UniformData)
    (input out₀ : ℕ → Ball) (i : ℕ) (hn : n ≤ grid * 64) (hi : i < n) :
    (dispatchGrid grid n uni input out₀ i).radius = (input i).radius ∧
    ∀ uni2 : UniformData, ∀ src : Ball,
      (kernelStep uni2 src).radius = src.radius := by
  refine ⟨?_, fun uni2 src => kernelStep_radius uni2 src⟩
  rw [dispatchGrid_apply, if_pos ⟨lt_of_lt_of_le hi hn, hi⟩]
  exact kernelStep_radius uni (input i)

theorem C6_radius_immutable_witness :
    (dispatchGrid 1 1 ⟨100, 100⟩ (fun _ => ⟨3, 5, 7, 11, 13⟩)
        (fun _ => ⟨0, 0, 0, 0, 0⟩) 0).radius = 3 :=
  ((C6_radius_immutable 1 1 ⟨100, 100⟩ (fun _ => ⟨3, 5, 7, 11, 13⟩)
      (fun _ => ⟨0, 0, 0, 0, 0⟩) 0 (by decide) (by decide)).1)

/-- One frame of the orchestrator loop's compute half: the kernel is
dispatched over the whole grid, and the read-back (`computedOutput`)
wholesale replaces the next frame's `inputBalls`. -/
def frame (grid n : ℕ) (uni : UniformData) (input : ℕ → Ball) : ℕ → Ball :=
  dispatchGrid grid n uni input input

theorem kernelStep_static (uni : UniformData) (b : Ball)
    (hx : b.velX = 0) (hy : b.velY = 0) : kernelStep uni b = b := by
  have hvx := kernelStep_velX uni b
  have hvy := kernelStep_velY uni b
  rw [hx] at hvx
  rw [hy] at hvy
  apply Ball.ext
  · exact kernelStep_radius uni b
  · rw [kernelStep_posX uni b, hx]
    ring
  · rw [kernelStep_posY uni b, hy]
    ring
  · rw [hx, hvx]
    split_ifs <;> simp
  · rw [hy, hvy]
    split_ifs <;> simp

theorem frame_static (grid n : ℕ) (uni : UniformData) (input : ℕ → Ball)
    (i : ℕ) (hn : n ≤ grid * 64) (hi : i < n)
    (hx : (input i).velX = 0) (hy : (input i).velY = 0) :
    ∀ N, ((frame grid n uni)^[N] input) i = input i := by
  intro N
  induction N with
  | zero => rfl
  | succ k ih =>
    rw [Function.iterate_succ_apply']
    show dispatchGrid grid n uni ((frame grid n uni)^[k] input)
        ((frame grid n uni)^[k] input) i = input i
    rw [dispatchGrid_apply, if_pos ⟨lt_of_lt_of_le hi hn, hi⟩, ih,
      kernelStep_static uni (input i) hx hy]

/-- C5: a particle with zero velocity is a fixed point of the frame
feedback loop: for every number of frames `N ≥ 1`, iterating the frame
step (each frame's kernel output replacing the next frame's input) leaves
that particle's position unchanged. -/
theorem C5_zero_velocity_fixed (grid n : ℕ) (uni : UniformData)
    (input : ℕ → Ball) (i N : ℕ) (hn : n ≤ grid * 64) (hi : i < n)
    (hx : (input i).velX = 0) (hy : (input i).velY = 0) (_hN : 1 ≤ N) :
    (((frame grid n uni)^[N] input) i).posX = (input i).posX ∧
    (((frame grid n uni)^[N] input) i).posY = (input i).posY := by
  rw [frame_static grid n uni input i hn hi hx hy N]
  exact ⟨rfl, rfl⟩

theorem C5_zero_velocity_fixed_witness :
    (((frame 1 1 ⟨100, 100⟩)^[2] (fun _ => ⟨2, 5, 7, 0, 0⟩)) 0).posX = 5 ∧
    (((frame 1 1 ⟨100, 100⟩)^[2] (fun _ => ⟨2, 5, 7, 0, 0⟩)) 0).posY = 7 :=
  C5_zero_velocity_fixed 1 1 ⟨100, 100⟩ (fun _ => ⟨2, 5, 7, 0, 0⟩) 0 2
    (by decide) (by decide) rfl rfl (by decide)

/-- CPU-side color state carried across loop iterations:
`let color = [255, 0, 0]` and `let addColor = 0.5`. -/
structure ColorState where
  red : ℚ
  green : ℚ
  blue : ℚ
  addColor : ℚ
  deriving DecidableEq

/-- Initial color state from src/gpu.ts. -/
def colorInit : ColorState := ⟨255, 0, 0, 0.5⟩

/-- The per-frame sign update of `addColor`:
`if (color[1] >= 255 || color[1] < 0) { addColor = addColor * -1 }`. -/
def colorAdd (s : ColorState) : ℚ :=
  if s.green ≥ 255 ∨ s.green < 0 then s.addColor * (-1) else s.addColor

/-- The per-frame color update from the bottom of the frame loop:
flip `addColor` at the bounds check, then `color[1] += addColor;
color[2] += addColor` (red `color[0]` is never assigned). -/
def colorStep (s : ColorState) : ColorState :=
  { s with
    green := s.green + colorAdd s,
    blue := s.blue + colorAdd s,
    addColor := colorAdd s }

theorem colorIter_up : ∀ k : ℕ, k ≤ 510 →
    colorStep^[k] colorInit = ⟨255, (k : ℚ) / 2, (k : ℚ) / 2, 1 / 2⟩ := by
  intro k
  induction k with
  | zero =>
    intro _
    norm_num [colorInit]
  | succ m ih =>
    intro hk
    have hm : m ≤ 510 := Nat.le_of_succ_le hk
    have hm509 : (m : ℚ) ≤ 509 := by
      have : m ≤ 509 := by omega
      exact_mod_cast this
    rw [Function.iterate_succ_apply', ih hm]
    have hc : ¬(((m : ℚ) / 2 ≥ 255) ∨ ((m : ℚ) / 2 < 0)) := by
      push_neg
      constructor
      · linarith
      · positivity
    simp only [colorStep, colorAdd]
    rw [if_neg hc]
    have : ((m : ℚ) + 1) / 2 = (m : ℚ) / 2 + 1 / 2 := by ring
    simp [this]

theorem colorIter_down : ∀ k : ℕ, k ≤ 510 →
    colorStep^[511 + k] colorInit =
      ⟨255, (509 - (k : ℚ)) / 2, (509 - (k : ℚ)) / 2, -(1 / 2)⟩ := by
  intro k
  induction k with
  | zero =>
    intro _
    have h510 : colorStep^[510] colorInit = ⟨255, 255, 255, 1 / 2⟩ := by
      rw [colorIter_up 510 le_rfl]
      norm_num
    rw [show (511 : ℕ) = 510 + 1 from rfl, Function.iterate_succ_apply', h510]
    have hc : ((255 : ℚ) ≥ 255) ∨ ((255 : ℚ) < 0) := Or.inl le_rfl
    simp only [colorStep, colorAdd]
    rw [if_pos hc]
    norm_num
  | succ m ih =>
    intro hk
    have hm : m ≤ 510 := Nat.le_of_succ_le hk
    have hm509 : (m : ℚ) ≤ 509 := by
      have : m ≤ 509 := by omega
      exact_mod_cast this
    rw [show 511 + (m + 1) = (511 + m) + 1 by omega,
      Function.iterate_succ_apply', ih hm]
    have hc : ¬(((509 - (m : ℚ)) / 2 ≥ 255) ∨ ((509 - (m : ℚ)) / 2 < 0)) := by
      push_neg
      have hm0 : (0 : ℚ) ≤ (m : ℚ) := by positivity
      constructor
      · linarith
      · linarith
    simp only [colorStep, colorAdd]
    rw [if_neg hc]
    have : (509 - ((m : ℚ) + 1)) / 2 = (509 - (m : ℚ)) / 2 + -(1 / 2) := by
      ring
    simp only [Nat.cast_succ, this]

/-- C7 counterexample: after 1021 frames the green (and blue) channel is
`-1/2`, strictly below 0, so the channels do not always remain within
`[0, 255]` as the claim states. -/
theorem C7_counterexample : (colorStep^[1021] colorInit).green < 0 := by
  rw [show (1021 : ℕ) = 511 + 510 from rfl, colorIter_down 510 le_rfl]
  norm_num

/-- Invariant carried by the color state across frames. -/
def ColorInv (s : ColorState) : Prop :=
  s.red = 255 ∧ s.blue = s.green ∧ (∃ k : ℤ, s.green = (k : ℚ) / 2) ∧
  ((s.addColor = 1 / 2 ∧ 0 ≤ s.green ∧ s.green ≤ 255) ∨
   (s.addColor = -(1 / 2) ∧ -(1 / 2) ≤ s.green ∧ s.green ≤ 509 / 2))

theorem colorInv_init : ColorInv colorInit := by
  refine ⟨rfl, rfl, ⟨0, by norm_num [colorInit]⟩,
    Or.inl ⟨by norm_num [colorInit], by norm_num [colorInit],
      by norm_num [colorInit]⟩⟩

theorem colorInv_step (s : ColorState) (h : ColorInv s) :
    ColorInv (colorStep s) := by
  obtain ⟨hr, hb, ⟨k, hk⟩, hcase⟩ := h
  by_cases hc : s.green ≥ 255 ∨ s.green < 0
  · have ha : colorAdd s = s.addColor * (-1) := if_pos hc
    rcases hcase with ⟨had, hg0, hg255⟩ | ⟨had, hgl, hgu⟩
    · -- ascending, at a bound: since green is in [0,255], it must be 255
      have hg : s.green = 255 := by
        rcases hc with h255 | hneg
        · exact le_antisymm hg255 h255
        · linarith
      refine ⟨hr, ?_, ⟨509, ?_⟩, Or.inr ⟨?_, ?_, ?_⟩⟩ <;>
        simp only [colorStep, ha, had, hg, hb] <;> norm_num
    · -- descending, at a bound: green is in [-1/2, 509/2], so green < 0,
      -- and being a half-integer it is exactly -1/2
      have hgneg : s.green < 0 := by
        rcases hc with h255 | hneg
        · linarith
        · exact hneg
      have hkneg : (k : ℚ) < 0 := by
        rw [hk] at hgneg
        linarith
      have hkge : (-1 : ℚ) ≤ (k : ℚ) := by
        rw [hk] at hgl
        linarith
      have hk1 : k = -1 := by
        have h1 : k < 0 := by exact_mod_cast hkneg
        have h2 : (-1 : ℤ) ≤ k := by exact_mod_cast hkge
        omega
      have hg : s.green = -(1 / 2) := by
        rw [hk, hk1]
        norm_num
      refine ⟨hr, ?_, ⟨0, ?_⟩, Or.inl ⟨?_, ?_, ?_⟩⟩ <;>
        simp only [colorStep, ha, had, hg, hb] <;> norm_num
  · have ha : colorAdd s = s.addColor := if_neg hc
    push_neg at hc
    obtain ⟨hlt255, hge0⟩ := hc
    rcases hcase with ⟨had, hg0, _⟩ | ⟨had, _, hgu⟩
    · -- ascending, strictly inside: green < 255 and a half-integer,
      -- so green ≤ 509/2 and green + 1/2 ≤ 255
      have hklt : (k : ℚ) < 510 := by
        rw [hk] at hlt255
        linarith
      have hk509 : (k : ℚ) ≤ 509 := by
        have h1 : k < 510 := by exact_mod_cast hklt
        have h2 : k ≤ 509 := by omega
        exact_mod_cast h2
      refine ⟨hr, ?_, ⟨k + 1, ?_⟩, Or.inl ⟨?_, ?_, ?_⟩⟩ <;>
        simp only [colorStep, ha, had, hb] <;> push_cast <;>
        rw [hk] at * <;> try ring_nf
      all_goals linarith
    · -- descending, strictly inside
      refine ⟨hr, ?_, ⟨k - 1, ?_⟩, Or.inr ⟨?_, ?_, ?_⟩⟩ <;>
        simp only [colorStep, ha, had, hb] <;> push_cast <;>
        rw [hk] at * <;> try ring_nf
      all_goals linarith

theorem colorInv_iterate (N : ℕ) : ColorInv (colorStep^[N] colorInit) := by
  induction N with
  | zero => exact colorInv_init
  | succ k ih =>
    rw [Function.iterate_succ_apply']
    exact colorInv_step _ ih

/-- C7 amended: across all frames the red channel stays fixed at its
initial value 255, green and blue coincide and each change by exactly
`±1/2` per frame (reversing at the bounds check), and they always remain
within `[-1/2, 255]`: the lower-bound check `color[1] < 0` is strict and
runs before the increment, so the channels dip half a step below 0 for
one frame at the bottom of each triangle wave instead of staying within
`[0, 255]`. -/
theorem C7_color_amended (N : ℕ) :
    (colorStep^[N] colorInit).red = 255 ∧
    (colorStep^[N] colorInit).blue = (colorStep^[N] colorInit).green ∧
    -(1 / 2) ≤ (colorStep^[N] colorInit).green ∧
    (colorStep^[N] colorInit).green ≤ 255 ∧
    ((colorStep^[N + 1] colorInit).green - (colorStep^[N] colorInit).green
        = 1 / 2 ∨
     (colorStep^[N + 1] colorInit).green - (colorStep^[N] colorInit).green
        = -(1 / 2)) := by
  obtain ⟨hr, hb, ⟨k, hk⟩, hcase⟩ := colorInv_iterate N
  have hstep : (colorStep^[N + 1] colorInit).green =
      (colorStep^[N] colorInit).green + colorAdd (colorStep^[N] colorInit) := by
    rw [Function.iterate_succ_apply']
    rfl
  have hbounds : -(1 / 2) ≤ (colorStep^[N] colorInit).green ∧
      (colorStep^[N] colorInit).green ≤ 255 := by
    rcases hcase with ⟨_, hg0, hg255⟩ | ⟨_, hgl, hgu⟩
    · exact ⟨by linarith, hg255⟩
    · exact ⟨hgl, by linarith⟩
  refine ⟨hr, hb, hbounds.1, hbounds.2, ?_⟩
  rw [hstep]
  unfold colorAdd
  rcases hcase with ⟨had, _, _⟩ | ⟨had, _, _⟩ <;> rw [had] <;>
    split_ifs <;> [right; left; left; right] <;> ring

/-- The helper `randomBetween(min, max)` from src/gpu.ts, with the
`Math.random()` sample made explicit as the argument `r`: swap the bounds
when `min > max`, then return `r * (max - min) + min`. -/
def randomBetween (r a b : ℚ) : ℚ :=
  if a > b then r * (a - b) + b else r * (b - a) + a

/-- Canvas width from main.ts (`<canvas id="canvas" width="1000" ...>`). -/
def canvasWidth : ℚ := 1000

/-- Canvas height from main.ts. -/
def canvasHeight : ℚ := 800

/-- One iteration body of the initialization loop, writing six floats at
offsets `i .. i+5` of the balls array (`arr`): radius, padding, position
x/y, velocity x/y.  The random stream `rand` is consumed at positions
`ctr, ctr+1, ...` (five samples per iteration; the padding slot consumes
none). -/
def writeBall (rand : ℕ → ℚ) (ctr i : ℕ) (arr : ℕ → ℚ) : ℕ → ℚ :=
  fun j =>
    if j = i then randomBetween (rand ctr) 2 10
    else if j = i + 1 then 0
    else if j = i + 2 then randomBetween (rand (ctr + 1)) 0 canvasWidth
    else if j = i + 3 then randomBetween (rand (ctr + 2)) 0 canvasHeight
    else if j = i + 4 then randomBetween (rand (ctr + 3)) (-100) 100
    else if j = i + 5 then randomBetween (rand (ctr + 4)) (-100) 100
    else arr j

/-- The initialization loop `for (let i = 0; i < numBalls; i += 6)` from
src/gpu.ts, with enough fuel for every iteration the loop condition
admits (the condition compares the float index `i` against `numBalls`,
not against `numBalls * 6`). -/
def initLoop (rand : ℕ → ℚ) : ℕ → ℕ → ℕ → (ℕ → ℚ) → ℕ → ℚ
  | 0, _, _, arr => arr
  | fuel + 1, i, ctr, arr =>
    if i < numBalls then
      initLoop rand fuel (i + 6) (ctr + 5) (writeBall rand ctr i arr)
    else arr

/-- The initial balls array: a zero-filled `Float32Array` of
`BUFFER_SIZE` bytes, then the initialization loop. -/
def inputBalls (rand : ℕ → ℚ) : ℕ → ℚ :=
  initLoop rand numBalls 0 0 (fun _ => 0)

set_option maxRecDepth 10000 in
/-- C3: the initialization loop's bound is `i < numBalls` while its step
is `i += 6`, so only float offsets `0 .. 203` (particles 0 to 33) are
ever written; particle index 34 (< 200) keeps the zero fill, so its
radius is 0, not in `[2, 10]`, whatever the random stream returns.  This
contradicts the documented intent that every one of the 200 particles is
randomized with radius in `[2, 10]`. -/
theorem C3_uninitialized_radius (rand : ℕ → ℚ) :
    inputBalls rand (34 * 6) = 0 := rfl

/-- C10: with any `Math.random()` sample `r` in `[0, 1)`, `randomBetween`
returns a value in `[min a b, max a b)` when `a ≠ b` (it swaps its
arguments rather than failing when the first exceeds the second), and
returns exactly `a` when `a = b`. -/
theorem C10_randomBetween_range (r a b : ℚ) (h0 : 0 ≤ r) (h1 : r < 1) :
    (a ≠ b → min a b ≤ randomBetween r a b ∧
      randomBetween r a b < max a b) ∧
    (a = b → randomBetween r a b = a) := by
  constructor
  · intro hab
    unfold randomBetween
    rcases lt_trichotomy a b with h | h | h
    · rw [if_neg (not_lt.mpr h.le), min_eq_left h.le, max_eq_right h.le]
      constructor
      · nlinarith [mul_nonneg h0 (by linarith : (0 : ℚ) ≤ b - a)]
      · nlinarith [mul_pos (by linarith : (0 : ℚ) < 1 - r)
          (by linarith : (0 : ℚ) < b - a)]
    · exact absurd h hab
    · rw [if_pos h, min_eq_right h.le, max_eq_left h.le]
      constructor
      · nlinarith [mul_nonneg h0 (by linarith : (0 : ℚ) ≤ a - b)]
      · nlinarith [mul_pos (by linarith : (0 : ℚ) < 1 - r)
          (by linarith : (0 : ℚ) < a - b)]
  · intro hab
    subst hab
    unfold randomBetween
    rw [if_neg (lt_irrefl a)]
    ring

theorem C10_randomBetween_range_witness :
    (min (3 : ℚ) 1 ≤ randomBetween (1 / 2) 3 1 ∧
      randomBetween (1 / 2) 3 1 < max (3 : ℚ) 1) ∧
    randomBetween (1 / 2) 4 4 = 4 :=
  ⟨(C10_randomBetween_range (1 / 2) 3 1 (by norm_num) (by norm_num)).1
      (by norm_num),
   (C10_randomBetween_range (1 / 2) 4 4 (by norm_num) (by norm_num)).2 rfl⟩

/-- The JavaScript constant `Number.EPSILON`, exactly `2 ^ (-52)`. -/
def jsEpsilon : ℚ := 1 / 2 ^ 52

/-- The renderer's heading-angle computation from `renderBalls`:
`c = Math.atan(velY / (velX === 0 ? Number.EPSILON : velX))`, then
`velX < 0 && (c += Math.PI)`, modelled with exact real arithmetic. -/
noncomputable def headingAngle (vx vy : ℝ) : ℝ :=
  let c := Real.arctan (vy / (if vx = 0 then ((jsEpsilon : ℚ) : ℝ) else vx))
  if vx < 0 then c + Real.pi else c

theorem headingAngle_up : headingAngle 0 5 = Real.arctan (5 * 2 ^ 52) := by
  simp only [headingAngle, if_true, lt_self_iff_false, if_false]
  congr 1
  rw [show ((jsEpsilon : ℚ) : ℝ) = 1 / 2 ^ 52 by
    unfold jsEpsilon
    push_cast
    norm_num]
  norm_num

/-- C8 counterexample: in exact real arithmetic the guarded heading for
velocity `(0, 5)` is `arctan (5 / ε)`, which is strictly below `π / 2`,
so it does not equal `π / 2` as the claim states (that equality only
appears after floating-point rounding of `Math.atan`). -/
theorem C8_counterexample : headingAngle 0 5 ≠ Real.pi / 2 := by
  rw [headingAngle_up]
  exact ne_of_lt (Real.arctan_lt_pi_div_two _)

theorem arctan_lt_of_pos {y : ℝ} (hy : 0 < y) : Real.arctan y < y := by
  have h1 : 0 < Real.arctan y := by
    rw [← Real.arctan_zero]
    exact Real.arctan_strictMono hy
  have h3 := Real.lt_tan h1 (Real.arctan_lt_pi_div_two y)
  rwa [Real.tan_arctan] at h3

/-- C8 amended: the divisor guard always substitutes a nonzero value, so
no division by zero occurs; for velocity `(0, 5)` the heading is
`arctan (5 / ε)`, within `2 ^ (-54)` below `π / 2` (upward orientation,
but equal to `π / 2` only after floating-point rounding, not exactly);
and for velocity `(-5, 0)` the kernel adds `π` because `velX < 0`,
yielding exactly the leftward orientation `π`. -/
theorem C8_heading_amended :
    (∀ vx : ℝ, (if vx = 0 then ((jsEpsilon : ℚ) : ℝ) else vx) ≠ 0) ∧
    Real.pi / 2 - 1 / 2 ^ 54 < headingAngle 0 5 ∧
    headingAngle 0 5 < Real.pi / 2 ∧
    headingAngle (-5) 0 = Real.pi := by
  refine ⟨?_, ?_, ?_, ?_⟩
  · intro vx
    split_ifs with h
    · rw [show ((jsEpsilon : ℚ) : ℝ) = 1 / 2 ^ 52 by
        unfold jsEpsilon
        push_cast
        norm_num]
      norm_num
    · exact h
  · have hx : (0 : ℝ) < 5 * 2 ^ 52 := by positivity
    have hinv := Real.arctan_inv_of_pos hx
    have hlt : Real.arctan ((5 * 2 ^ 52 : ℝ))⁻¹ < 1 / 2 ^ 54 := by
      have h1 : ((5 * 2 ^ 52 : ℝ))⁻¹ < 1 / 2 ^ 54 := by
        rw [inv_lt_iff_one_lt_mul₀ hx]
        norm_num
      exact lt_trans (arctan_lt_of_pos (by positivity)) h1
    rw [headingAngle_up]
    linarith
  · rw [headingAngle_up]
    exact Real.arctan_lt_pi_div_two _
  · simp only [headingAngle]
    rw [if_neg (by norm_num : ¬((-5 : ℝ) = 0)),
      if_pos (by norm_num : (-5 : ℝ) < 0), zero_div, Real.arctan_zero,
      zero_add]

/-- Value of one hex digit as accepted by the case-insensitive regex
character class `[0-9a-f]` and decoded by `parseInt(_, 16)`. -/
def hexVal (c : Char) : Option ℕ :=
  if '0' ≤ c ∧ c ≤ '9' then some (c.toNat - '0'.toNat)
  else if 'a' ≤ c ∧ c ≤ 'f' then some (c.toNat - 'a'.toNat + 10)
  else if 'A' ≤ c ∧ c ≤ 'F' then some (c.toNat - 'A'.toNat + 10)
  else none

/-- Value of a two-hex-digit capture group, as `parseInt(m[i], 16)`. -/
def octetVal (hi lo : Char) : Option ℕ :=
  match hexVal hi, hexVal lo with
  | some h, some l => some (16 * h + l)
  | _, _ => none

/-- The match of `/^([0-9a-f]{2})([0-9a-f]{2})([0-9a-f]{2})$/i`: succeeds
exactly on strings of six hex digits, returning the three octet values. -/
def parseTriplet (s : String) : Option (ℕ × ℕ × ℕ) :=
  match s.data with
  | [a1, a2, a3, a4, a5, a6] =>
    match octetVal a1 a2, octetVal a3 a4, octetVal a5 a6 with
    | some r, some g, some b => some (r, g, b)
    | _, _, _ => none
  | _ => none

/-- The two-character capture-group substring starting at offset `k`
(what the regex groups `m[1]`, `m[2]`, `m[3]` hold). -/
def octetSub (s : String) (k : ℕ) : String :=
  String.mk ((s.data.drop k).take 2)

/-- `n.toString(16)` for a natural number: lowercase hex digits. -/
def natHex (n : ℕ) : String := String.mk (Nat.toDigits 16 n)

/-- `sum.toString(16).padStart(2, '0')` for `sum ≤ 255`: exactly two
lowercase hex digits. -/
def hexPad2 (n : ℕ) : String :=
  String.mk [Nat.digitChar (n / 16), Nat.digitChar (n % 16)]

/-- The error text of `invalid hex color triplet(s): ${c1} / ${c2}`. -/
def invalidMsg (s1 s2 : String) : String :=
  "invalid hex color triplet(s): " ++ s1 ++ " / " ++ s2

/-- The error text of
`octet ${i} overflow: ${m1[i]}+${m2[i]}=${sum.toString(16)}`. -/
def overflowMsg (i : ℕ) (p q : String) (v : ℕ) : String :=
  "octet " ++ Nat.repr i ++ " overflow: " ++ p ++ "+" ++ q ++ "=" ++
    natHex v

/-- The helper `addHexColor(c1, c2)` from src/gpu.ts: match both inputs
against the six-hex-digit triplet regex (throwing a descriptive error
when either fails), then sum the octets pairwise, throwing on the first
pair whose sum exceeds `0xff`, and otherwise render each sum as two
padded hex digits. -/
def addHexColor (s1 s2 : String) : Except String String :=
  match parseTriplet s1, parseTriplet s2 with
  | some (r1, g1, b1), some (r2, g2, b2) =>
    if 255 < r1 + r2 then
      Except.error (overflowMsg 1 (octetSub s1 0) (octetSub s2 0) (r1 + r2))
    else if 255 < g1 + g2 then
      Except.error (overflowMsg 2 (octetSub s1 2) (octetSub s2 2) (g1 + g2))
    else if 255 < b1 + b2 then
      Except.error (overflowMsg 3 (octetSub s1 4) (octetSub s2 4) (b1 + b2))
    else
      Except.ok (hexPad2 (r1 + r2) ++ hexPad2 (g1 + g2) ++ hexPad2 (b1 + b2))
  | _, _ => Except.error (invalidMsg s1 s2)

/-- A character of the regex class `[0-9a-f]` with the `i` flag. -/
def isHexDigit (c : Char) : Prop :=
  ('0' ≤ c ∧ c ≤ '9') ∨ ('a' ≤ c ∧ c ≤ 'f') ∨ ('A' ≤ c ∧ c ≤ 'F')

/-- A string that the triplet regex accepts: exactly six hex digits. -/
def sixHexDigits (s : String) : Prop :=
  s.data.length = 6 ∧ ∀ c ∈ s.data, isHexDigit c

theorem hexVal_isSome_iff (c : Char) :
    (hexVal c).isSome = true ↔ isHexDigit c := by
  unfold hexVal isHexDigit
  split_ifs with h1 h2 h3
  · exact iff_of_true rfl (Or.inl h1)
  · exact iff_of_true rfl (Or.inr (Or.inl h2))
  · exact iff_of_true rfl (Or.inr (Or.inr h3))
  · refine iff_of_false (by simp) ?_
    rintro (h | h | h)
    · exact h1 h
    · exact h2 h
    · exact h3 h

theorem octetVal_isSome_iff (hi lo : Char) :
    (octetVal hi lo).isSome = true ↔ isHexDigit hi ∧ isHexDigit lo := by
  rw [← hexVal_isSome_iff, ← hexVal_isSome_iff]
  unfold octetVal
  rcases hexVal hi with _ | h <;> rcases hexVal lo with _ | l <;> simp

theorem parseTriplet_isSome_iff (s : String) :
    (parseTriplet s).isSome = true ↔ sixHexDigits s := by
  obtain ⟨l⟩ := s
  rcases l with _ | ⟨a1, l⟩
  · simp [parseTriplet, sixHexDigits]
  rcases l with _ | ⟨a2, l⟩
  · simp [parseTriplet, sixHexDigits]
  rcases l with _ | ⟨a3, l⟩
  · simp [parseTriplet, sixHexDigits]
  rcases l with _ | ⟨a4, l⟩
  · simp [parseTriplet, sixHexDigits]
  rcases l with _ | ⟨a5, l⟩
  · simp [parseTriplet, sixHexDigits]
  rcases l with _ | ⟨a6, l⟩
  · simp [parseTriplet, sixHexDigits]
  rcases l with _ | ⟨a7, l⟩
  · have h12 := octetVal_isSome_iff a1 a2
    have h34 := octetVal_isSome_iff a3 a4
    have h56 := octetVal_isSome_iff a5 a6
    rcases o1 : octetVal a1 a2 with _ | r <;>
      rcases o2 : octetVal a3 a4 with _ | g <;>
      rcases o3 : octetVal a5 a6 with _ | b <;>
      rw [o1] at h12 <;> rw [o2] at h34 <;> rw [o3] at h56 <;>
      simp only [Option.isSome_none, Option.isSome_some, Bool.false_eq_true,
        false_iff, true_iff] at h12 h34 h56 <;>
      simp [parseTriplet, sixHexDigits, o1, o2, o3] <;> tauto
  · simp [parseTriplet, sixHexDigits]

theorem hexVal_digitChar : ∀ d : Fin 16,
    hexVal (Nat.digitChar d.val) = some d.val := by decide

theorem hexVal_digitChar_of_lt {d : ℕ} (hd : d < 16) :
    hexVal (Nat.digitChar d) = some d := hexVal_digitChar ⟨d, hd⟩

theorem octetVal_digitChars (n : ℕ) (hn : n ≤ 255) :
    octetVal (Nat.digitChar (n / 16)) (Nat.digitChar (n % 16)) = some n := by
  have h1 : n / 16 < 16 := by omega
  have h2 : n % 16 < 16 := by omega
  unfold octetVal
  rw [hexVal_digitChar_of_lt h1, hexVal_digitChar_of_lt h2]
  simp [Nat.div_add_mod]

theorem parseTriplet_hexPad2 (a b c : ℕ) (ha : a ≤ 255) (hb : b ≤ 255)
    (hc : c ≤ 255) :
    parseTriplet (hexPad2 a ++ hexPad2 b ++ hexPad2 c) = some (a, b, c) := by
  have hdata : (hexPad2 a ++ hexPad2 b ++ hexPad2 c).data =
      [Nat.digitChar (a / 16), Nat.digitChar (a % 16),
       Nat.digitChar (b / 16), Nat.digitChar (b % 16),
       Nat.digitChar (c / 16), Nat.digitChar (c % 16)] := by
    simp [hexPad2, String.data_append]
  unfold parseTriplet
  rw [hdata]
  simp [octetVal_digitChars a ha, octetVal_digitChars b hb,
    octetVal_digitChars c hc]

theorem addHexColor_some_some {s1 s2 : String} {r1 g1 b1 r2 g2 b2 : ℕ}
    (h1 : parseTriplet s1 = some (r1, g1, b1))
    (h2 : parseTriplet s2 = some (r2, g2, b2)) :
    addHexColor s1 s2 =
      if 255 < r1 + r2 then
        Except.error (overflowMsg 1 (octetSub s1 0) (octetSub s2 0) (r1 + r2))
      else if 255 < g1 + g2 then
        Except.error (overflowMsg 2 (octetSub s1 2) (octetSub s2 2) (g1 + g2))
      else if 255 < b1 + b2 then
        Except.error (overflowMsg 3 (octetSub s1 4) (octetSub s2 4) (b1 + b2))
      else Except.ok (hexPad2 (r1 + r2) ++ hexPad2 (g1 + g2) ++
        hexPad2 (b1 + b2)) := by
  unfold addHexColor
  rw [h1, h2]

theorem addHexColor_invalid (s1 s2 : String)
    (h : parseTriplet s1 = none ∨ parseTriplet s2 = none) :
    addHexColor s1 s2 = Except.error (invalidMsg s1 s2) := by
  unfold addHexColor
  rcases hA : parseTriplet s1 with _ | ⟨r1, g1, b1⟩ <;>
    rcases hB : parseTriplet s2 with _ | ⟨r2, g2, b2⟩
  · rfl
  · rfl
  · rfl
  · rw [hA, hB] at h
    simp at h

/-- C9: `addHexColor` fails exactly when an input is not a six-hex-digit
triplet or a pair of corresponding octets sums over `0xff`: success holds
iff both inputs parse and all three octet sums are at most 255; a parse
failure produces the error message quoting both input values; a
successful call returns the six-hex-digit string whose three octets are
the octet-wise sums (no clamping); and an octet overflow produces an
error message naming the offending octet values and their sum. -/
theorem C9_addHexColor_spec (s1 s2 : String) :
    ((addHexColor s1 s2).isOk = true ↔
      (∃ t1 t2 : ℕ × ℕ × ℕ, parseTriplet s1 = some t1 ∧
        parseTriplet s2 = some t2 ∧ t1.1 + t2.1 ≤ 255 ∧
        t1.2.1 + t2.2.1 ≤ 255 ∧ t1.2.2 + t2.2.2 ≤ 255)) ∧
    (((parseTriplet s1).isSome = true ↔ sixHexDigits s1) ∧
     ((parseTriplet s2).isSome = true ↔ sixHexDigits s2)) ∧
    (parseTriplet s1 = none ∨ parseTriplet s2 = none →
      addHexColor s1 s2 = Except.error (invalidMsg s1 s2)) ∧
    (∀ t1 t2 : ℕ × ℕ × ℕ, parseTriplet s1 = some t1 →
      parseTriplet s2 = some t2 → t1.1 + t2.1 ≤ 255 →
      t1.2.1 + t2.2.1 ≤ 255 → t1.2.2 + t2.2.2 ≤ 255 →
      addHexColor s1 s2 = Except.ok (hexPad2 (t1.1 + t2.1) ++
        hexPad2 (t1.2.1 + t2.2.1) ++ hexPad2 (t1.2.2 + t2.2.2)) ∧
      parseTriplet (hexPad2 (t1.1 + t2.1) ++ hexPad2 (t1.2.1 + t2.2.1) ++
        hexPad2 (t1.2.2 + t2.2.2)) =
          some (t1.1 + t2.1, t1.2.1 + t2.2.1, t1.2.2 + t2.2.2)) ∧
    (∀ t1 t2 : ℕ × ℕ × ℕ, parseTriplet s1 = some t1 →
      parseTriplet s2 = some t2 →
      ¬(t1.1 + t2.1 ≤ 255 ∧ t1.2.1 + t2.2.1 ≤ 255 ∧
        t1.2.2 + t2.2.2 ≤ 255) →
      ∃ i p q v, addHexColor s1 s2 = Except.error (overflowMsg i p q v) ∧
        255 < v) := by
  refine ⟨?_, ⟨parseTriplet_isSome_iff s1, parseTriplet_isSome_iff s2⟩,
    addHexColor_invalid s1 s2, ?_, ?_⟩
  · rcases hA : parseTriplet s1 with _ | ⟨r1, g1, b1⟩
    · rw [addHexColor_invalid s1 s2 (Or.inl hA)]
      simp [Except.isOk, Except.toBool, hA]
    · rcases hB : parseTriplet s2 with _ | ⟨r2, g2, b2⟩
      · rw [addHexColor_invalid s1 s2 (Or.inr hB)]
        simp [Except.isOk, Except.toBool, hB]
      · rw [addHexColor_some_some hA hB]
        by_cases h1 : 255 < r1 + r2
        · rw [if_pos h1]
          refine iff_of_false (by simp [Except.isOk, Except.toBool]) ?_
          rintro ⟨t1, t2, ht1, ht2, hs1, hs2, hs3⟩
          injection ht1 with ht1e
          injection ht2 with ht2e
          subst ht1e
          subst ht2e
          dsimp only at hs1
          omega
        · rw [if_neg h1]
          by_cases h2 : 255 < g1 + g2
          · rw [if_pos h2]
            refine iff_of_false (by simp [Except.isOk, Except.toBool]) ?_
            rintro ⟨t1, t2, ht1, ht2, hs1, hs2, hs3⟩
            injection ht1 with ht1e
            injection ht2 with ht2e
            subst ht1e
            subst ht2e
            dsimp only at hs2
            omega
          · rw [if_neg h2]
            by_cases h3 : 255 < b1 + b2
            · rw [if_pos h3]
              refine iff_of_false (by simp [Except.isOk, Except.toBool]) ?_
              rintro ⟨t1, t2, ht1, ht2, hs1, hs2, hs3⟩
              injection ht1 with ht1e
              injection ht2 with ht2e
              subst ht1e
              subst ht2e
              dsimp only at hs3
              omega
            · rw [if_neg h3]
              refine iff_of_true (by simp [Except.isOk, Except.toBool])
                ⟨(r1, g1, b1), (r2, g2, b2), rfl, rfl, ?_, ?_, ?_⟩ <;>
                dsimp only <;> omega
  · rintro ⟨r1, g1, b1⟩ ⟨r2, g2, b2⟩ ht1 ht2 hs1 hs2 hs3
    dsimp only at hs1 hs2 hs3 ⊢
    rw [addHexColor_some_some ht1 ht2, if_neg (by omega), if_neg (by omega),
      if_neg (by omega)]
    exact ⟨rfl, parseTriplet_hexPad2 _ _ _ (by omega) (by omega) (by omega)⟩
  · rintro ⟨r1, g1, b1⟩ ⟨r2, g2, b2⟩ ht1 ht2 hover
    dsimp only at hover
    rw [addHexColor_some_some ht1 ht2]
    by_cases h1 : 255 < r1 + r2
    · exact ⟨1, octetSub s1 0, octetSub s2 0, r1 + r2, by rw [if_pos h1], h1⟩
    · rw [if_neg h1]
      by_cases h2 : 255 < g1 + g2
      · exact ⟨2, octetSub s1 2, octetSub s2 2, g1 + g2,
          by rw [if_pos h2], h2⟩
      · rw [if_neg h2]
        by_cases h3 : 255 < b1 + b2
        · exact ⟨3, octetSub s1 4, octetSub s2 4, b1 + b2,
            by rw [if_pos h3], h3⟩
        · exact absurd ⟨by omega, by omega, by omega⟩ hover

theorem C9_addHexColor_spec_witness :
    addHexColor "0a0b0c" "010203" =
      Except.ok (hexPad2 11 ++ hexPad2 13 ++ hexPad2 15) ∧
    addHexColor "0a0b0c" "010203" = Except.ok "0b0d0f" := by
  have h := ((C9_addHexColor_spec "0a0b0c" "010203").2.2.2.1
    (10, 11, 12) (1, 2, 3) (by decide) (by decide) (by decide) (by decide)
    (by decide)).1
  exact ⟨h, h.trans (congrArg Except.ok (by decide))⟩

end SurmaBalls
